/-
  Verification of the time-series analytics and archival engine of
  `dashboard.py` (CAC40 dashboard).

  The file shallowly embeds the functions of the source that the claims
  talk about:

  * `update_history_data`  — the end-of-day archiver (source lines 396-436);
  * `calculate_sharpe_ratio`, `calculate_sortino_ratio`,
    `calculate_drawdown`, `calculate_volatility` — the metrics engine
    (source lines 48-140);
  * the per-bar returns of `load_realtime_data` (line 158) and the log
    returns of `create_daily_report` (line 252);
  * `resample_data` — the weekly/monthly resampler (lines 170-191);
  * the risk-metrics disclosure logic of `create_daily_report`
    (lines 267-306).

  Timestamps are modelled as minutes since an epoch (`dateOf`, `hourOf`),
  prices as rationals where the code only moves them around, and the
  statistics over real numbers.  A pandas value of NaN produced by a
  sample standard deviation over fewer than two observations is modelled
  as `Option.none`; reading a CSV file that may be missing or unparsable
  is modelled as an `Option` argument (`none` = the read raises and the
  surrounding `except` swallows it).
-/
import Mathlib

open Classical

set_option maxHeartbeats 1000000

/-! ## Archiver model (source lines 396-436)

A realtime bar carries a full timestamp (minutes since epoch) and the four
price columns `OpenPrice, ClosePrice, High, Low` of `data_output.csv`. -/

structure TBar where
  ts : Nat
  openPrice : ℚ
  closePrice : ℚ
  high : ℚ
  low : ℚ
  deriving DecidableEq, Repr

/-- `datetime.date()` of a minutes-since-epoch timestamp: the day index. -/
def dateOf (t : Nat) : Nat := t / 1440

/-- `datetime.hour` of a minutes-since-epoch timestamp. -/
def hourOf (t : Nat) : Nat := t % 1440 / 60

/-- pandas `Series.max()` over a list of rationals (0 on the empty list,
which the code never hits: it is only applied to a non-empty subset). -/
def qmax : List ℚ → ℚ
  | [] => 0
  | h :: t => t.foldl max h

/-- pandas `Series.min()` over a list of rationals. -/
def qmin : List ℚ → ℚ
  | [] => 0
  | h :: t => t.foldl min h

/-- The single row appended to `data_history.csv` (source lines 423-429):
`Date = today_data['Date'].iloc[-1]`, `OpenPrice = iloc[0]`,
`ClosePrice = iloc[-1]`, `High = max`, `Low = min`. -/
def mkRecord (today_data : List TBar) : TBar :=
  { ts := ((today_data.getLast?).map (fun b => b.ts)).getD 0
    openPrice := ((today_data.head?).map (fun b => b.openPrice)).getD 0
    closePrice := ((today_data.getLast?).map (fun b => b.closePrice)).getD 0
    high := qmax (today_data.map (fun b => b.high))
    low := qmin (today_data.map (fun b => b.low)) }

/-- Embedding of `update_history_data` (source lines 396-436).

`realtime` is the result of reading `data_output.csv` (`none`: the read or
the parse raises, the `except` at line 435 swallows it and the archive file
is left untouched).  `readable` says whether reading `data_history.csv`
succeeds; on failure the same `except` fires.  `archive` is the current
content of `data_history.csv`; the returned list is its content after the
call. -/
def update_history_data (now : Nat) (realtime : Option (List TBar))
    (readable : Bool) (archive : List TBar) : List TBar :=
  if hourOf now = 20 then
    match realtime with
    | none => archive
    | some rt =>
      if readable then
        let today_data := rt.filter (fun b => dateOf b.ts = dateOf now)
        if today_data.isEmpty then archive
        else if archive.any (fun b => dateOf b.ts = dateOf now) then archive
        else archive ++ [mkRecord today_data]
      else archive
  else archive

example :
    update_history_data 8400
      (some [⟨7500, 100, 101, 102, 99⟩, ⟨8000, 101, 100, 101, 100⟩])
      true []
      = [⟨8000, 100, 100, 102, 99⟩] := by decide

example :
    update_history_data 8400
      (some [⟨7500, 100, 101, 102, 99⟩])
      true [⟨8000, 1, 1, 1, 1⟩]
      = [⟨8000, 1, 1, 1, 1⟩] := by decide

/-! ## Metrics engine model (source lines 48-168, 252-258)

The statistics act on real-valued series (pandas columns).  `nmean`,
`sampleVar`, `sampleStd` embed pandas `Series.mean()` / `Series.std()`
(sample standard deviation, `ddof = 1`). -/

noncomputable def nmean (xs : List ℝ) : ℝ := xs.sum / xs.length

noncomputable def sampleVar (xs : List ℝ) : ℝ :=
  ((xs.map (fun x => (x - nmean xs) ^ 2)).sum) / ((xs.length : ℝ) - 1)

noncomputable def sampleStd (xs : List ℝ) : ℝ := Real.sqrt (sampleVar xs)

/-- `np.log(1 + risk_free_rate) / 252` (source lines 59 and 102). -/
noncomputable def daily_rf (risk_free_rate : ℝ) : ℝ :=
  Real.log (1 + risk_free_rate) / 252

/-- The default annual risk-free rate of both ratios (3%). -/
noncomputable def default_risk_free_rate : ℝ := 3 / 100

/-- Embedding of `calculate_sharpe_ratio` (source lines 48-71). -/
noncomputable def calculate_sharpe_ratio (returns : List ℝ)
    (risk_free_rate : ℝ) : ℝ :=
  if returns.length < 2 then 0
  else
    let excess_returns := returns.map (fun r => r - daily_rf risk_free_rate)
    let vol := sampleStd excess_returns
    if vol = 0 then 0 else nmean excess_returns / vol

/-- Embedding of `calculate_sortino_ratio` (source lines 91-117).

pandas `Series.std()` of a single observation is NaN (`ddof = 1`); the
comparison `downside_vol == 0` is then false and `excess_returns.mean() /
downside_vol` is NaN as well, so on exactly one negative excess return the
function returns NaN — modelled as `none`.  Every other path returns a real
number, modelled as `some`. -/
noncomputable def calculate_sortino_ratio (returns : List ℝ)
    (risk_free_rate : ℝ) : Option ℝ :=
  if returns.length < 2 then some 0
  else
    let excess_returns := returns.map (fun r => r - daily_rf risk_free_rate)
    let negative_returns := excess_returns.filter (fun r => r < 0)
    if negative_returns.length = 0 then some 0
    else if negative_returns.length = 1 then none
    else
      let downside_vol := sampleStd negative_returns
      if downside_vol = 0 then some 0
      else some (nmean excess_returns / downside_vol)

/-- pandas `Series.max()` over reals (0 on the empty list, never hit). -/
noncomputable def listMax : List ℝ → ℝ
  | [] => 0
  | h :: t => t.foldl max h

/-- pandas `Series.min()` over reals (0 on the empty list, never hit). -/
noncomputable def listMin : List ℝ → ℝ
  | [] => 0
  | h :: t => t.foldl min h

/-- `Series.cumsum()`: entry `i` is the sum of the first `i + 1` entries. -/
noncomputable def cumsum (xs : List ℝ) : List ℝ :=
  (List.range xs.length).map (fun i => ((xs.take (i + 1)).sum))

/-- `Series.cummax()`: entry `i` is the max of the first `i + 1` entries. -/
noncomputable def cummax (xs : List ℝ) : List ℝ :=
  (List.range xs.length).map (fun i => listMax (xs.take (i + 1)))

/-- Embedding of `calculate_drawdown` (source lines 119-140): returns the
drawdown series and the max drawdown. -/
noncomputable def calculate_drawdown (returns : List ℝ) : List ℝ × ℝ :=
  if returns.length < 2 then ([], 0)
  else
    let cum_returns := cumsum returns
    let cum_max := cummax cum_returns
    let drawdown := List.zipWith (fun a b => a - b) cum_returns cum_max
    (drawdown, listMin drawdown)

/-- The per-bar return of `load_realtime_data` (source line 158):
`df['ClosePrice'].pct_change().fillna(0)`, i.e. the fractional
close-over-close change, with the leading NaN filled with 0. -/
noncomputable def barReturn (closePrice : ℕ → ℝ) (i : ℕ) : ℝ :=
  if i = 0 then 0
  else (closePrice i - closePrice (i - 1)) / closePrice (i - 1)

/-- The log return of `create_daily_report` (source line 252):
`np.log(realtime_df['ClosePrice'] / realtime_df['ClosePrice'].shift(1))`,
meaningful for `i ≥ 1` (entry 0 is NaN in the source). -/
noncomputable def logReturn (closePrice : ℕ → ℝ) (i : ℕ) : ℝ :=
  Real.log (closePrice i / closePrice (i - 1))

/-- The window of `Series.rolling(window=w, min_periods=1)` at index `i`:
the last `w` entries ending at `i`. -/
def windowSlice (xs : List ℝ) (w i : ℕ) : List ℝ :=
  (xs.take (i + 1)).drop (i + 1 - w)

/-- `Series.rolling(window=w, min_periods=1).std()` at index `i`.
With fewer than two observations in the window the sample standard
deviation is NaN (`none`); otherwise it is `sampleStd` of the window. -/
noncomputable def rollingStd (xs : List ℝ) (w i : ℕ) : Option ℝ :=
  if (windowSlice xs w i).length < 2 then none
  else some (sampleStd (windowSlice xs w i))

/-- Embedding of `calculate_volatility` (source lines 73-89): rolling
standard deviation over the granularity's window (bounded by the series
length), annualized and scaled to percent.

On the empty input series the source computes `window = min(20, 0) = 0`
and then `returns.rolling(window=0, min_periods=1)`, which raises
`ValueError` (`min_periods 1 must be <= window 0`) with no enclosing
`try/except`; the raise is modelled as the outer `none`.  On a non-empty
series the window is ≥ 1 and the call returns the rolling series. -/
noncomputable def calculate_volatility (returns : List ℝ)
    (period : String) : Option (List (Option ℝ)) :=
  let window :=
    if period = "day" then min 20 returns.length
    else if period = "week" then min 8 returns.length
    else min 6 returns.length
  let annualization :=
    if period = "day" then Real.sqrt 252
    else if period = "week" then Real.sqrt 52
    else Real.sqrt 12
  if window < 1 then none
  else some ((List.range returns.length).map
    (fun i => (rollingStd returns window i).map
      (fun s => s * annualization * 100)))

/-! ## Resampler model (source lines 170-191)

Daily bars carry a day index (days since 1970-01-01, which was a
Thursday) and the four price columns.  pandas `resample('W')` groups by
week ending Sunday — exactly the ISO week Monday..Sunday — and
`resample('M')` groups by calendar month; both emit one bucket per
week/month between the first and the last observation, in chronological
order, with NaN rows (`none` below) for empty buckets. -/

structure DBar where
  day : Nat
  openPrice : ℚ
  closePrice : ℚ
  high : ℚ
  low : ℚ
  deriving DecidableEq, Repr

structure OHLC where
  openPrice : ℚ
  closePrice : ℚ
  high : ℚ
  low : ℚ
  deriving DecidableEq, Repr

/-- Bucket aggregation of `resample(...).agg({'OpenPrice': 'first',
'High': 'max', 'Low': 'min', 'ClosePrice': 'last'})`. -/
def aggBucket (bs : List DBar) : OHLC :=
  { openPrice := ((bs.head?).map (fun b => b.openPrice)).getD 0
    closePrice := ((bs.getLast?).map (fun b => b.closePrice)).getD 0
    high := qmax (bs.map (fun b => b.high))
    low := qmin (bs.map (fun b => b.low)) }

/-- The bucket keys emitted by `resample`: every key between the minimal
and the maximal key of the data, in increasing order. -/
def bucketKeys (key : DBar → ℕ) (bars : List DBar) : List ℕ :=
  match bars.map key with
  | [] => []
  | k :: ks =>
    let kmin := ks.foldl min k
    let kmax := ks.foldl max k
    List.range' kmin (kmax + 1 - kmin)

/-- Generic resampling: one `(key, aggregate)` pair per emitted bucket;
`none` stands for the NaN row of an empty bucket. -/
def resampleBy (key : DBar → ℕ) (bars : List DBar) : List (ℕ × Option OHLC) :=
  (bucketKeys key bars).map
    (fun k =>
      (k, let bucket := bars.filter (fun b => key b = k)
          if bucket.isEmpty then none else some (aggBucket bucket)))

/-- ISO-week index of a day index: day 4 (1970-01-05) was a Monday, so
`(day + 3) / 7` is constant exactly on Monday..Sunday spans. -/
def weekKey (b : DBar) : ℕ := (b.day + 3) / 7

/-- Calendar month of a day index, as `year * 12 + month`, by the standard
civil-from-days conversion of the proleptic Gregorian calendar. -/
def monthIndexOfDay (z : ℕ) : ℕ :=
  let z' := z + 719468
  let era := z' / 146097
  let doe := z' % 146097
  let yoe := (doe - doe / 1460 + doe / 36524 - doe / 146096) / 365
  let y := yoe + era * 400
  let doy := doe - (365 * yoe + yoe / 4 - yoe / 100)
  let mp := (5 * doy + 2) / 153
  let m := if mp < 10 then mp + 3 else mp - 9
  let y' := if m ≤ 2 then y + 1 else y
  y' * 12 + m

def monthKey (b : DBar) : ℕ := monthIndexOfDay b.day

/-- Embedding of `resample_data` (source lines 170-191), restricted to the
grouping/aggregation it performs: weekly and monthly resample, passthrough
otherwise (`realtime` returns the data untouched, `day` copies it). -/
def resample_data (bars : List DBar) (period : String) : List (ℕ × Option OHLC) :=
  if period = "week" then resampleBy weekKey bars
  else if period = "month" then resampleBy monthKey bars
  else bars.map (fun b => (b.day, some ⟨b.openPrice, b.closePrice, b.high, b.low⟩))

example : monthIndexOfDay 0 = 1970 * 12 + 1 := by decide
example : monthIndexOfDay 30 = 1970 * 12 + 1 := by decide
example : monthIndexOfDay 31 = 1970 * 12 + 2 := by decide
example : monthIndexOfDay 19733 = 2024 * 12 + 1 := by decide

/-! ## Report disclosure model (source lines 267-306)

`create_daily_report` initializes the metrics block with a placeholder
message and `-----` values, then fills in numbers only when the weekday is
5 or 6 (Python `weekday()`, Saturday/Sunday) or the hour is ≥ 20, and only
if computing them does not raise (the `try/except: pass` keeps the
placeholder on failure).  Number formatting is abstracted: a shown number
is `some r`, the `-----` placeholder is `none`. -/

structure RiskNumbers where
  volatility : ℝ
  sharpe : ℝ
  sortino : ℝ
  cumulativeReturn : ℝ
  maxDrawdown : ℝ

structure DailyMetricsBlock where
  message : String
  volatility : Option ℝ
  sharpe : Option ℝ
  sortino : Option ℝ
  cumulativeReturn : Option ℝ
  maxDrawdown : Option ℝ

/-- The placeholder state of the metrics block (source lines 267-272). -/
def placeholderBlock : DailyMetricsBlock :=
  ⟨"Les informations seront disponibles à 20h", none, none, none, none, none⟩

/-- Disclosure logic of the metrics block (source lines 274-306).
`risk = none` models an exception raised while computing the risk metrics,
caught by the enclosing `except: pass`. -/
def metricsBlockOf (weekday hour : ℕ) (risk : Option RiskNumbers) :
    DailyMetricsBlock :=
  if 5 ≤ weekday then
    match risk with
    | some r =>
      ⟨"Métriques du vendredi", some r.volatility, some r.sharpe,
        some r.sortino, some r.cumulativeReturn, some r.maxDrawdown⟩
    | none => placeholderBlock
  else if 20 ≤ hour then
    match risk with
    | some r =>
      ⟨"Métriques de la journée", some r.volatility, some r.sharpe,
        some r.sortino, some r.cumulativeReturn, some r.maxDrawdown⟩
    | none => placeholderBlock
  else placeholderBlock

/-! ## Helper lemmas about the archiver -/

lemma uhd_noop_hour {now : ℕ} (realtime : Option (List TBar)) (readable : Bool)
    (archive : List TBar) (h20 : hourOf now ≠ 20) :
    update_history_data now realtime readable archive = archive := by
  simp [update_history_data, h20]

lemma uhd_noop_none (now : ℕ) (readable : Bool) (archive : List TBar) :
    update_history_data now none readable archive = archive := by
  simp [update_history_data]

lemma uhd_noop_unreadable (now : ℕ) (rt : List TBar) (archive : List TBar) :
    update_history_data now (some rt) false archive = archive := by
  simp [update_history_data]

lemma uhd_noop_empty {now : ℕ} (rt : List TBar) (archive : List TBar)
    (he : (rt.filter (fun b => dateOf b.ts = dateOf now)).isEmpty = true) :
    update_history_data now (some rt) true archive = archive := by
  simp [update_history_data, he]

lemma uhd_noop_dup {now : ℕ} (rt : List TBar) (archive : List TBar)
    (hdup : archive.any (fun b => dateOf b.ts = dateOf now) = true) :
    update_history_data now (some rt) true archive = archive := by
  by_cases h20 : hourOf now = 20
  · by_cases he : (rt.filter (fun b => dateOf b.ts = dateOf now)).isEmpty = true
    · simp [update_history_data, h20, he]
    · simp [update_history_data, h20, he, hdup]
  · simp [update_history_data, h20]

lemma uhd_eq_append {now : ℕ} (rt : List TBar) (archive : List TBar)
    (h20 : hourOf now = 20)
    (hne : (rt.filter (fun b => dateOf b.ts = dateOf now)).isEmpty = false)
    (hdup : archive.any (fun b => dateOf b.ts = dateOf now) = false) :
    update_history_data now (some rt) true archive
      = archive ++ [mkRecord (rt.filter (fun b => dateOf b.ts = dateOf now))] := by
  simp [update_history_data, h20, hne, hdup]

/-- The record built from the non-empty today-subset carries a timestamp
whose date is today. -/
lemma mkRecord_date (rt : List TBar) (d : ℕ)
    (h : (rt.filter (fun b => dateOf b.ts = d)) ≠ []) :
    dateOf (mkRecord (rt.filter (fun b => dateOf b.ts = d))).ts = d := by
  set td := rt.filter (fun b => dateOf b.ts = d) with htd
  have hlast : td.getLast? = some (td.getLast h) := List.getLast?_eq_getLast td h
  have hmem : td.getLast h ∈ td := List.getLast_mem h
  have hdate : dateOf (td.getLast h).ts = d := by
    have hmem' : td.getLast h ∈ rt.filter (fun b => dateOf b.ts = d) := by
      rw [← htd]; exact hmem
    have := List.mem_filter.mp hmem'
    exact of_decide_eq_true this.2
  simp [mkRecord, hlast, hdate]

/-- Every call of the archiver either leaves the archive untouched or, when
all four guards succeed (cutoff hour, readable feeds, non-empty
today-subset, no record for today yet), appends exactly the derived
record. -/
lemma uhd_dichotomy (now : ℕ) (realtime : Option (List TBar))
    (readable : Bool) (archive : List TBar) :
    update_history_data now realtime readable archive = archive
    ∨ (∃ rt, hourOf now = 20 ∧ realtime = some rt ∧ readable = true
        ∧ (rt.filter (fun b => dateOf b.ts = dateOf now)).isEmpty = false
        ∧ archive.any (fun b => dateOf b.ts = dateOf now) = false
        ∧ update_history_data now realtime readable archive
            = archive ++ [mkRecord (rt.filter (fun b => dateOf b.ts = dateOf now))]) := by
  by_cases h20 : hourOf now = 20
  · cases realtime with
    | none => exact Or.inl (uhd_noop_none now readable archive)
    | some rt =>
      cases readable with
      | false => exact Or.inl (uhd_noop_unreadable now rt archive)
      | true =>
        by_cases he : (rt.filter (fun b => dateOf b.ts = dateOf now)).isEmpty = true
        · exact Or.inl (uhd_noop_empty rt archive he)
        · by_cases hdup : archive.any (fun b => dateOf b.ts = dateOf now) = true
          · exact Or.inl (uhd_noop_dup rt archive hdup)
          · have he' : (rt.filter (fun b => dateOf b.ts = dateOf now)).isEmpty = false := by
              simpa using he
            have hdup' : archive.any (fun b => dateOf b.ts = dateOf now) = false := by
              simpa using hdup
            exact Or.inr ⟨rt, h20, rfl, rfl, he', hdup',
              uhd_eq_append rt archive h20 he' hdup'⟩
  · exact Or.inl (uhd_noop_hour realtime readable archive h20)

/-- C1.  Archiver idempotence: invoking `update_history_data` twice with
the same `now` and the same intraday snapshot yields the archive of a
single invocation; if the archive already contains a record for
`now.date()` no write occurs; and the at-most-one-record-per-date
invariant is preserved by every call. -/
theorem c1_archiver_idempotent (now : ℕ) (realtime : Option (List TBar))
    (readable : Bool) (archive : List TBar) :
    update_history_data now realtime readable
        (update_history_data now realtime readable archive)
      = update_history_data now realtime readable archive
    ∧ (archive.any (fun b => dateOf b.ts = dateOf now) = true →
        update_history_data now realtime readable archive = archive)
    ∧ (List.Pairwise (fun a b => dateOf a.ts ≠ dateOf b.ts) archive →
        List.Pairwise (fun a b => dateOf a.ts ≠ dateOf b.ts)
          (update_history_data now realtime readable archive)) := by
  refine ⟨?_, ?_, ?_⟩
  · rcases uhd_dichotomy now realtime readable archive with h |
      ⟨rt, h20, hrt, hrd, hne, hdup, heq⟩
    · rw [h]; exact h
    · subst hrt; subst hrd
      rw [heq]
      have hrec : dateOf (mkRecord (rt.filter (fun b => dateOf b.ts = dateOf now))).ts
          = dateOf now := by
        apply mkRecord_date
        simpa [List.isEmpty_iff] using hne
      apply uhd_noop_dup
      simp [List.any_append, hrec]
  · intro hdup
    rcases uhd_dichotomy now realtime readable archive with h |
      ⟨rt, _, _, _, _, hdup', _⟩
    · exact h
    · rw [hdup] at hdup'; exact absurd hdup' (by simp)
  · intro hpw
    rcases uhd_dichotomy now realtime readable archive with h |
      ⟨rt, h20, hrt, hrd, hne, hdup, heq⟩
    · rw [h]; exact hpw
    · rw [heq]
      have hrec : dateOf (mkRecord (rt.filter (fun b => dateOf b.ts = dateOf now))).ts
          = dateOf now := by
        apply mkRecord_date
        simpa [List.isEmpty_iff] using hne
      rw [List.pairwise_append]
      refine ⟨hpw, by simp, ?_⟩
      intro a ha b hb
      have hb' : b = mkRecord (rt.filter (fun b => dateOf b.ts = dateOf now)) := by
        simpa using hb
      subst hb'
      rw [hrec]
      have hall : ∀ x ∈ archive, ¬ dateOf x.ts = dateOf now := by simpa using hdup
      exact hall a ha

/-! ## Helper lemmas about list maxima and minima -/

lemma le_foldl_max {α : Type _} [LinearOrder α] (l : List α) (a : α) :
    a ≤ l.foldl max a := by
  induction l generalizing a with
  | nil => simp
  | cons x xs ih => exact le_trans (le_max_left a x) (ih (max a x))

lemma mem_le_foldl_max {α : Type _} [LinearOrder α] (l : List α) (a x : α)
    (h : x ∈ l) : x ≤ l.foldl max a := by
  induction l generalizing a with
  | nil => cases h
  | cons y ys ih =>
    rcases List.mem_cons.mp h with rfl | h'
    · exact le_trans (le_max_right a x) (le_foldl_max ys (max a x))
    · exact ih (max a y) h'

lemma foldl_max_mem {α : Type _} [LinearOrder α] (l : List α) (a : α) :
    l.foldl max a = a ∨ l.foldl max a ∈ l := by
  induction l generalizing a with
  | nil => exact Or.inl rfl
  | cons y ys ih =>
    rcases ih (max a y) with h | h
    · rw [List.foldl_cons, h]
      rcases max_choice a y with h1 | h1
      · exact Or.inl h1
      · right; rw [h1]; exact List.mem_cons_self y ys
    · exact Or.inr (List.mem_cons_of_mem y h)

lemma foldl_min_le {α : Type _} [LinearOrder α] (l : List α) (a : α) :
    l.foldl min a ≤ a := by
  induction l generalizing a with
  | nil => simp
  | cons x xs ih => exact le_trans (ih (min a x)) (min_le_left a x)

lemma foldl_min_le_mem {α : Type _} [LinearOrder α] (l : List α) (a x : α)
    (h : x ∈ l) : l.foldl min a ≤ x := by
  induction l generalizing a with
  | nil => cases h
  | cons y ys ih =>
    rcases List.mem_cons.mp h with rfl | h'
    · exact le_trans (foldl_min_le ys (min a x)) (min_le_right a x)
    · exact ih (min a y) h'

lemma foldl_min_mem {α : Type _} [LinearOrder α] (l : List α) (a : α) :
    l.foldl min a = a ∨ l.foldl min a ∈ l := by
  induction l generalizing a with
  | nil => exact Or.inl rfl
  | cons y ys ih =>
    rcases ih (min a y) with h | h
    · rw [List.foldl_cons, h]
      rcases min_choice a y with h1 | h1
      · exact Or.inl h1
      · right; rw [h1]; exact List.mem_cons_self y ys
    · exact Or.inr (List.mem_cons_of_mem y h)

lemma qmax_ge {l : List ℚ} {x : ℚ} (h : x ∈ l) : x ≤ qmax l := by
  cases l with
  | nil => cases h
  | cons y ys =>
    rcases List.mem_cons.mp h with rfl | h'
    · exact le_foldl_max ys x
    · exact mem_le_foldl_max ys y x h'

lemma qmax_mem {l : List ℚ} (h : l ≠ []) : qmax l ∈ l := by
  cases l with
  | nil => exact absurd rfl h
  | cons y ys =>
    rcases foldl_max_mem ys y with h1 | h1
    · show ys.foldl max y ∈ y :: ys
      rw [h1]; exact List.mem_cons_self y ys
    · exact List.mem_cons_of_mem y h1

lemma qmin_le {l : List ℚ} {x : ℚ} (h : x ∈ l) : qmin l ≤ x := by
  cases l with
  | nil => cases h
  | cons y ys =>
    rcases List.mem_cons.mp h with rfl | h'
    · exact foldl_min_le ys x
    · exact foldl_min_le_mem ys y x h'

lemma qmin_mem {l : List ℚ} (h : l ≠ []) : qmin l ∈ l := by
  cases l with
  | nil => exact absurd rfl h
  | cons y ys =>
    rcases foldl_min_mem ys y with h1 | h1
    · show ys.foldl min y ∈ y :: ys
      rw [h1]; exact List.mem_cons_self y ys
    · exact List.mem_cons_of_mem y h1

/-- Field characterization of the appended record: open of the first bar,
close of the last bar, attained upper bound of the highs, attained lower
bound of the lows. -/
lemma mkRecord_fields (td : List TBar) (htd : td ≠ []) :
    (mkRecord td).openPrice = (td.head htd).openPrice
    ∧ (mkRecord td).closePrice = (td.getLast htd).closePrice
    ∧ (∀ b ∈ td, b.high ≤ (mkRecord td).high)
    ∧ (∃ b ∈ td, (mkRecord td).high = b.high)
    ∧ (∀ b ∈ td, (mkRecord td).low ≤ b.low)
    ∧ (∃ b ∈ td, (mkRecord td).low = b.low) := by
  refine ⟨?_, ?_, ?_, ?_, ?_, ?_⟩
  · simp [mkRecord, List.head?_eq_head htd]
  · simp [mkRecord, List.getLast?_eq_getLast td htd]
  · intro b hb
    exact qmax_ge (List.mem_map_of_mem (fun x => x.high) hb)
  · have hne : td.map (fun x => x.high) ≠ [] := by
      simpa using htd
    obtain ⟨b, hb, hbe⟩ := List.mem_map.mp (qmax_mem hne)
    exact ⟨b, hb, hbe.symm⟩
  · intro b hb
    exact qmin_le (List.mem_map_of_mem (fun x => x.low) hb)
  · have hne : td.map (fun x => x.low) ≠ [] := by
      simpa using htd
    obtain ⟨b, hb, hbe⟩ := List.mem_map.mp (qmin_mem hne)
    exact ⟨b, hb, hbe.symm⟩

/-- C2.  Archive record derivation: at the cutoff hour, with no record for
today yet and a non-empty today-subset of the intraday series, the
archiver appends exactly one record whose open is the first open of the
subset, whose close is the last close, whose high/low are the attained
extremes, keyed by today's date; the append preserves ascending date
order; an empty today-subset leaves the archive unchanged. -/
theorem c2_archive_record_derivation (now : ℕ) (rt archive : List TBar)
    (h20 : hourOf now = 20) :
    (∀ htd : rt.filter (fun b => dateOf b.ts = dateOf now) ≠ [],
      archive.any (fun b => dateOf b.ts = dateOf now) = false →
        update_history_data now (some rt) true archive
            = archive ++ [mkRecord (rt.filter (fun b => dateOf b.ts = dateOf now))]
        ∧ dateOf (mkRecord (rt.filter (fun b => dateOf b.ts = dateOf now))).ts
            = dateOf now
        ∧ (mkRecord (rt.filter (fun b => dateOf b.ts = dateOf now))).openPrice
            = ((rt.filter (fun b => dateOf b.ts = dateOf now)).head htd).openPrice
        ∧ (mkRecord (rt.filter (fun b => dateOf b.ts = dateOf now))).closePrice
            = ((rt.filter (fun b => dateOf b.ts = dateOf now)).getLast htd).closePrice
        ∧ (∀ b ∈ rt.filter (fun b => dateOf b.ts = dateOf now),
            b.high ≤ (mkRecord (rt.filter (fun b => dateOf b.ts = dateOf now))).high)
        ∧ (∃ b ∈ rt.filter (fun b => dateOf b.ts = dateOf now),
            (mkRecord (rt.filter (fun b => dateOf b.ts = dateOf now))).high = b.high)
        ∧ (∀ b ∈ rt.filter (fun b => dateOf b.ts = dateOf now),
            (mkRecord (rt.filter (fun b => dateOf b.ts = dateOf now))).low ≤ b.low)
        ∧ (∃ b ∈ rt.filter (fun b => dateOf b.ts = dateOf now),
            (mkRecord (rt.filter (fun b => dateOf b.ts = dateOf now))).low = b.low)
        ∧ (List.Pairwise (fun a b => dateOf a.ts ≤ dateOf b.ts) archive →
            (∀ b ∈ archive, dateOf b.ts ≤ dateOf now) →
            List.Pairwise (fun a b => dateOf a.ts ≤ dateOf b.ts)
              (update_history_data now (some rt) true archive)))
    ∧ (rt.filter (fun b => dateOf b.ts = dateOf now) = [] →
        update_history_data now (some rt) true archive = archive) := by
  constructor
  · intro htd hdup
    have hne : (rt.filter (fun b => dateOf b.ts = dateOf now)).isEmpty = false := by
      simpa [List.isEmpty_iff] using htd
    have heq := uhd_eq_append rt archive h20 hne hdup
    have hdate := mkRecord_date rt (dateOf now) htd
    obtain ⟨ho, hc, hh1, hh2, hl1, hl2⟩ :=
      mkRecord_fields (rt.filter (fun b => dateOf b.ts = dateOf now)) htd
    refine ⟨heq, hdate, ho, hc, hh1, hh2, hl1, hl2, ?_⟩
    intro hpw hle
    rw [heq, List.pairwise_append]
    refine ⟨hpw, by simp, ?_⟩
    intro a ha b hb
    have hb' : b = mkRecord (rt.filter (fun b => dateOf b.ts = dateOf now)) := by
      simpa using hb
    subst hb'
    rw [hdate]
    exact hle a ha
  · intro htd
    exact uhd_noop_empty rt archive (by simp [htd])

/-- Witness for C2 at a concrete input: two intraday bars of day 5,
archive holding one bar of day 4, called at 20:00 of day 5. -/
theorem c2_archive_record_derivation_witness :
    update_history_data 8400
        (some [⟨7500, 100, 101, 102, 99⟩, ⟨8000, 101, 100, 101, 100⟩])
        true [⟨6000, 90, 91, 92, 89⟩]
      = [⟨6000, 90, 91, 92, 89⟩]
        ++ [mkRecord ([⟨7500, 100, 101, 102, 99⟩, ⟨8000, 101, 100, 101, 100⟩].filter
              (fun b => dateOf b.ts = dateOf 8400))] :=
  (((c2_archive_record_derivation 8400
      [⟨7500, 100, 101, 102, 99⟩, ⟨8000, 101, 100, 101, 100⟩]
      [⟨6000, 90, 91, 92, 89⟩] (by decide)).1 (by decide) (by decide))).1

/-- Witness for C1 at a concrete input: archive already holds a record for
today (day 5), so the call at 20:00 of day 5 leaves it unchanged. -/
theorem c1_archiver_idempotent_witness :
    update_history_data 8400 (some [⟨7500, 100, 101, 102, 99⟩]) true
        [⟨8000, 1, 1, 1, 1⟩] = [⟨8000, 1, 1, 1, 1⟩] :=
  (c1_archiver_idempotent 8400 (some [⟨7500, 100, 101, 102, 99⟩]) true
      [⟨8000, 1, 1, 1, 1⟩]).2.1 (by decide)

/-- C10.  Archiver atomicity: on every error path (unreadable realtime
feed, unreadable history file, wrong hour, empty today-subset) the archive
is returned exactly as it was; a write happens only when the cutoff-hour
check, both reads, the non-empty today-subset check and the
duplicate-date check all succeed, and then it is the single final append. -/
theorem c10_archiver_atomicity (now : ℕ) (realtime : Option (List TBar))
    (readable : Bool) (archive : List TBar) :
    (realtime = none →
      update_history_data now realtime readable archive = archive)
    ∧ (readable = false →
      update_history_data now realtime readable archive = archive)
    ∧ (hourOf now ≠ 20 →
      update_history_data now realtime readable archive = archive)
    ∧ (∀ rt, realtime = some rt →
        rt.filter (fun b => dateOf b.ts = dateOf now) = [] →
        update_history_data now realtime readable archive = archive)
    ∧ (update_history_data now realtime readable archive ≠ archive →
        hourOf now = 20 ∧ readable = true
        ∧ ∃ rt, realtime = some rt
            ∧ rt.filter (fun b => dateOf b.ts = dateOf now) ≠ []
            ∧ archive.any (fun b => dateOf b.ts = dateOf now) = false
            ∧ update_history_data now realtime readable archive
                = archive ++ [mkRecord (rt.filter (fun b => dateOf b.ts = dateOf now))]) := by
  refine ⟨?_, ?_, ?_, ?_, ?_⟩
  · intro h; subst h; exact uhd_noop_none now readable archive
  · intro h; subst h
    cases realtime with
    | none => exact uhd_noop_none now false archive
    | some rt => exact uhd_noop_unreadable now rt archive
  · intro h; exact uhd_noop_hour realtime readable archive h
  · intro rt hrt he
    subst hrt
    cases readable with
    | false => exact uhd_noop_unreadable now rt archive
    | true => exact uhd_noop_empty rt archive (by simp [he])
  · intro hne
    rcases uhd_dichotomy now realtime readable archive with h |
      ⟨rt, h20, hrt, hrd, he, hdup, heq⟩
    · exact absurd h hne
    · exact ⟨h20, hrd, rt, hrt,
        by simpa [List.isEmpty_iff] using he, hdup, heq⟩

/-- Witness for C10 at a concrete input: the realtime read fails and the
archive is returned untouched. -/
theorem c10_archiver_atomicity_witness :
    update_history_data 8400 none true [⟨6000, 90, 91, 92, 89⟩]
      = [⟨6000, 90, 91, 92, 89⟩] :=
  (c10_archiver_atomicity 8400 none true [⟨6000, 90, 91, 92, 89⟩]).1 rfl

/-! ## C3: the two return definitions -/

/-- C3 counterexample.  On the two-bar feed with bars
(open 100, close 100) and (open 50, close 100) the per-bar return computed
by `load_realtime_data` (close-over-close `pct_change`) is 0, while the
formula `(close[1] - open[1]) / open[1]` claimed by the spec gives 1:
the claimed identity is false. -/
theorem c3_return_formula_counterexample :
    barReturn (fun _ => (100 : ℝ)) 1 = 0
    ∧ ((100 : ℝ) - 50) / 50 = 1
    ∧ barReturn (fun _ => (100 : ℝ)) 1 ≠ ((100 : ℝ) - 50) / 50 := by
  norm_num [barReturn]

/-- C3 (amended).  The engine exposes both return definitions: the per-bar
return used in reports is the close-over-close fractional change
`(close[i] - close[i-1]) / close[i-1]`, and the log return is
`ln(close[i] / close[i-1])`, for every series and every index `i ≥ 1`. -/
theorem c3_returns_amended (closePrice : ℕ → ℝ) (i : ℕ) (h : 1 ≤ i) :
    barReturn closePrice i
        = (closePrice i - closePrice (i - 1)) / closePrice (i - 1)
    ∧ logReturn closePrice i = Real.log (closePrice i / closePrice (i - 1)) := by
  have hi : i ≠ 0 := by omega
  simp [barReturn, logReturn, hi]

/-- Witness for C3 on the spec's scenario feed
`[(09:00, open 100, close 101), (09:05, open 101, close 100)]`:
`return[1] = (100 - 101)/101` and `logReturn[1] = ln(100/101)`. -/
theorem c3_returns_amended_witness :
    barReturn (fun i => if i = 0 then (101 : ℝ) else 100) 1
        = ((100 : ℝ) - 101) / 101
    ∧ logReturn (fun i => if i = 0 then (101 : ℝ) else 100) 1
        = Real.log ((100 : ℝ) / 101) := by
  obtain ⟨h1, h2⟩ :=
    c3_returns_amended (fun i => if i = 0 then (101 : ℝ) else 100) 1 (by norm_num)
  constructor
  · rw [h1]; norm_num
  · rw [h2]; norm_num

/-! ## C4/C5: Sharpe and Sortino ratios -/

lemma nmean_replicate (n : ℕ) (c : ℝ) (h : n ≠ 0) :
    nmean (List.replicate n c) = c := by
  have hn : (n : ℝ) ≠ 0 := Nat.cast_ne_zero.mpr h
  field_simp [nmean, List.sum_replicate, nsmul_eq_mul]

lemma sampleStd_replicate (n : ℕ) (c : ℝ) :
    sampleStd (List.replicate n c) = 0 := by
  cases n with
  | zero => simp [sampleStd, sampleVar, nmean]
  | succ m =>
    have h := nmean_replicate (m + 1) c (by omega)
    simp [sampleStd, sampleVar, h, List.map_replicate, List.sum_replicate]

/-- C4.  Sharpe ratio: for a log-return series the ratio is
`mean(excess) / stdev(excess)` with `excess = returns − ln(1 + rf)/252`;
it is the sentinel 0 when the series has fewer than 2 observations or the
standard deviation of the excess returns is 0, and in particular on every
constant return series (hence on every constant-price series, whose log
returns are constant). -/
theorem c4_sharpe_ratio (returns : List ℝ) (rf : ℝ) :
    (2 ≤ returns.length →
        sampleStd (returns.map (fun r => r - Real.log (1 + rf) / 252)) ≠ 0 →
        calculate_sharpe_ratio returns rf
          = nmean (returns.map (fun r => r - Real.log (1 + rf) / 252))
            / sampleStd (returns.map (fun r => r - Real.log (1 + rf) / 252)))
    ∧ (returns.length < 2 → calculate_sharpe_ratio returns rf = 0)
    ∧ (sampleStd (returns.map (fun r => r - Real.log (1 + rf) / 252)) = 0 →
        calculate_sharpe_ratio returns rf = 0)
    ∧ (∀ c, returns = List.replicate returns.length c →
        calculate_sharpe_ratio returns rf = 0) := by
  refine ⟨?_, ?_, ?_, ?_⟩
  · intro hlen hstd
    have h2 : ¬ returns.length < 2 := by omega
    simp [calculate_sharpe_ratio, h2, daily_rf, hstd]
  · intro hlen
    simp [calculate_sharpe_ratio, hlen]
  · intro hstd
    by_cases hlen : returns.length < 2
    · simp [calculate_sharpe_ratio, hlen]
    · simp [calculate_sharpe_ratio, hlen, daily_rf] at hstd ⊢
      simp [hstd]
  · intro c hc
    by_cases hlen : returns.length < 2
    · simp [calculate_sharpe_ratio, hlen]
    · rw [hc]
      have : (List.replicate returns.length c).map
          (fun r => r - daily_rf rf) = List.replicate returns.length (c - daily_rf rf) :=
        List.map_replicate ..
      simp [calculate_sharpe_ratio, hc ▸ hlen, this, sampleStd_replicate]

/-- Witness for C4: a constant log-return series of three observations has
Sharpe ratio 0. -/
theorem c4_sharpe_ratio_witness :
    calculate_sharpe_ratio (List.replicate 3 (1 / 100 : ℝ)) (3 / 100) = 0 :=
  (c4_sharpe_ratio (List.replicate 3 (1 / 100 : ℝ)) (3 / 100)).2.2.2
    (1 / 100) (by simp)


lemma daily_rf_def (rf : ℝ) : daily_rf rf = Real.log (1 + rf) / 252 := rfl

lemma calculate_sortino_ratio_def (returns : List ℝ) (rf : ℝ) :
    calculate_sortino_ratio returns rf =
      if returns.length < 2 then some 0
      else if ((returns.map (fun r => r - daily_rf rf)).filter
          (fun r => r < 0)).length = 0 then some 0
      else if ((returns.map (fun r => r - daily_rf rf)).filter
          (fun r => r < 0)).length = 1 then none
      else if sampleStd ((returns.map (fun r => r - daily_rf rf)).filter
          (fun r => r < 0)) = 0 then some 0
      else some (nmean (returns.map (fun r => r - daily_rf rf))
          / sampleStd ((returns.map (fun r => r - daily_rf rf)).filter
              (fun r => r < 0))) := rfl

/-- C5.  Sortino ratio: for a log-return series the ratio is
`mean(excess) / stdev(negative excess)`; it is the sentinel 0 when the
series has fewer than 2 observations, when no negative excess returns
exist, or when the downside deviation is 0 — in particular on every
constant return series. -/
theorem c5_sortino_ratio (returns : List ℝ) (rf : ℝ) :
    (returns.length < 2 → calculate_sortino_ratio returns rf = some 0)
    ∧ ((returns.map (fun r => r - Real.log (1 + rf) / 252)).filter
          (fun r => r < 0) = [] →
        calculate_sortino_ratio returns rf = some 0)
    ∧ (2 ≤ ((returns.map (fun r => r - Real.log (1 + rf) / 252)).filter
          (fun r => r < 0)).length →
        sampleStd ((returns.map (fun r => r - Real.log (1 + rf) / 252)).filter
          (fun r => r < 0)) = 0 →
        calculate_sortino_ratio returns rf = some 0)
    ∧ (2 ≤ ((returns.map (fun r => r - Real.log (1 + rf) / 252)).filter
          (fun r => r < 0)).length →
        sampleStd ((returns.map (fun r => r - Real.log (1 + rf) / 252)).filter
          (fun r => r < 0)) ≠ 0 →
        calculate_sortino_ratio returns rf
          = some (nmean (returns.map (fun r => r - Real.log (1 + rf) / 252))
              / sampleStd ((returns.map (fun r => r - Real.log (1 + rf) / 252)).filter
                  (fun r => r < 0))))
    ∧ (∀ c, returns = List.replicate returns.length c →
        calculate_sortino_ratio returns rf = some 0) := by
  have hle : ((returns.map (fun r => r - Real.log (1 + rf) / 252)).filter
      (fun r => decide (r < 0))).length ≤ returns.length := by
    have h := List.length_filter_le (fun r => decide (r < 0))
      (returns.map (fun r => r - Real.log (1 + rf) / 252))
    simpa using h
  refine ⟨?_, ?_, ?_, ?_, ?_⟩
  · intro hlen
    rw [calculate_sortino_ratio_def, if_pos hlen]
  · intro hneg
    by_cases hlen : returns.length < 2
    · rw [calculate_sortino_ratio_def, if_pos hlen]
    · rw [calculate_sortino_ratio_def, if_neg hlen, daily_rf_def, if_pos]
      rw [hneg]
      rfl
  · intro hlen2 hstd
    have hlen : ¬ returns.length < 2 := by omega
    rw [calculate_sortino_ratio_def, if_neg hlen, daily_rf_def,
      if_neg (by omega), if_neg (by omega), if_pos hstd]
  · intro hlen2 hstd
    have hlen : ¬ returns.length < 2 := by omega
    rw [calculate_sortino_ratio_def, if_neg hlen, daily_rf_def,
      if_neg (by omega), if_neg (by omega), if_neg hstd]
  · intro c hc
    by_cases hlen : returns.length < 2
    · rw [calculate_sortino_ratio_def, if_pos hlen]
    · rw [calculate_sortino_ratio_def, if_neg hlen]
      have hmap : (returns.map (fun r => r - daily_rf rf))
          = List.replicate returns.length (c - daily_rf rf) := by
        conv_lhs => rw [hc]
        rw [List.map_replicate]
      rw [hmap]
      by_cases hneg : (c - daily_rf rf) < 0
      · have hfil : (List.replicate returns.length (c - daily_rf rf)).filter
            (fun r => r < 0) = List.replicate returns.length (c - daily_rf rf) := by
          simp [List.filter_replicate, hneg]
        rw [hfil, List.length_replicate,
          if_neg (by omega), if_neg (by omega), if_pos (sampleStd_replicate ..)]
      · have hfil : (List.replicate returns.length (c - daily_rf rf)).filter
            (fun r => r < 0) = [] := by
          simp [List.filter_replicate, hneg]
        rw [hfil]
        simp

/-- Witness for C5: a constant log-return series of two observations has
Sortino ratio 0. -/
theorem c5_sortino_ratio_witness :
    calculate_sortino_ratio (List.replicate 2 (0 : ℝ)) (3 / 100) = some 0 :=
  (c5_sortino_ratio (List.replicate 2 (0 : ℝ)) (3 / 100)).2.2.2.2 0 (by simp)

/-! ## C6: drawdown -/

lemma listMax_ge {l : List ℝ} {x : ℝ} (h : x ∈ l) : x ≤ listMax l := by
  cases l with
  | nil => cases h
  | cons y ys =>
    rcases List.mem_cons.mp h with rfl | h'
    · exact le_foldl_max ys x
    · exact mem_le_foldl_max ys y x h'

lemma get_mem_take {α : Type _} (l : List α) (i : ℕ) (h : i < l.length) :
    l.get ⟨i, h⟩ ∈ l.take (i + 1) := by
  have h1 : i < (l.take (i + 1)).length := by simp; omega
  have h2 : (l.take (i + 1)).get ⟨i, h1⟩ = l.get ⟨i, h⟩ := by
    simp [List.getElem_take]
  rw [← h2]
  exact List.get_mem _ _ _

lemma cumsum_length (xs : List ℝ) : (cumsum xs).length = xs.length := by
  simp [cumsum]

lemma cummax_length (xs : List ℝ) : (cummax xs).length = xs.length := by
  simp [cummax]

lemma cumsum_get (xs : List ℝ) (i : ℕ) (h : i < (cumsum xs).length) :
    (cumsum xs).get ⟨i, h⟩ = (xs.take (i + 1)).sum := by
  simp [cumsum]

lemma cummax_get (xs : List ℝ) (i : ℕ) (h : i < (cummax xs).length) :
    (cummax xs).get ⟨i, h⟩ = listMax (xs.take (i + 1)) := by
  simp [cummax]

lemma calculate_drawdown_def (returns : List ℝ) :
    calculate_drawdown returns =
      if returns.length < 2 then ([], 0)
      else (List.zipWith (fun a b => a - b) (cumsum returns) (cummax (cumsum returns)),
            listMin (List.zipWith (fun a b => a - b) (cumsum returns)
              (cummax (cumsum returns)))) := rfl

/-- C6.  Drawdown: for a series of at least two log returns the drawdown
series is `cumsum - cummax (cumsum)`, entry `i` equals the running sum of
the first `i + 1` returns minus the running maximum of the cumulative
returns up to index `i`, every entry is `≤ 0`, and the max drawdown is
the minimum of the drawdown series; with fewer than 2 observations the
result is the empty series and 0. -/
theorem c6_drawdown (returns : List ℝ) :
    (2 ≤ returns.length →
      (calculate_drawdown returns).1
          = List.zipWith (fun a b => a - b) (cumsum returns)
              (cummax (cumsum returns))
      ∧ (calculate_drawdown returns).1.length = returns.length
      ∧ (∀ i, i < returns.length →
          (calculate_drawdown returns).1.getD i 0
            = (returns.take (i + 1)).sum - listMax ((cumsum returns).take (i + 1))
          ∧ (calculate_drawdown returns).1.getD i 0 ≤ 0)
      ∧ (calculate_drawdown returns).2 = listMin (calculate_drawdown returns).1)
    ∧ (returns.length < 2 → calculate_drawdown returns = ([], 0)) := by
  constructor
  · intro hlen
    have hn : ¬ returns.length < 2 := by omega
    have hcd : calculate_drawdown returns
        = (List.zipWith (fun a b => a - b) (cumsum returns) (cummax (cumsum returns)),
           listMin (List.zipWith (fun a b => a - b) (cumsum returns)
             (cummax (cumsum returns)))) := by
      rw [calculate_drawdown_def, if_neg hn]
    refine ⟨by rw [hcd], ?_, ?_, by rw [hcd]⟩
    · rw [hcd]
      simp [List.length_zipWith, cumsum_length, cummax_length]
    · intro i hi
      rw [hcd]
      have hc : i < (cumsum returns).length := by rw [cumsum_length]; exact hi
      have hm : i < (cummax (cumsum returns)).length := by
        rw [cummax_length, cumsum_length]; exact hi
      have hz : i < (List.zipWith (fun a b => a - b) (cumsum returns)
          (cummax (cumsum returns))).length := by
        simp [List.length_zipWith, cumsum_length, cummax_length]
        exact hi
      have hget : (List.zipWith (fun a b => a - b) (cumsum returns)
            (cummax (cumsum returns))).getD i 0
          = (cumsum returns).get ⟨i, hc⟩ - (cummax (cumsum returns)).get ⟨i, hm⟩ := by
        rw [List.getD_eq_getElem _ _ hz]
        simp [List.getElem_zipWith]
      rw [hget, cumsum_get, cummax_get]
      constructor
      · rfl
      · have hmem : (cumsum returns).get ⟨i, hc⟩ ∈ (cumsum returns).take (i + 1) :=
          get_mem_take (cumsum returns) i hc
        have hle := listMax_ge hmem
        rw [cumsum_get] at hle
        exact sub_nonpos.mpr hle
  · intro hlen
    rw [calculate_drawdown_def, if_pos hlen]

/-- Witness for C6 on the concrete series `[1, -1]`: the drawdown entry at
index 1 is `≤ 0` and the max drawdown is the minimum of the drawdown
series. -/
theorem c6_drawdown_witness :
    (calculate_drawdown [(1 : ℝ), -1]).1.getD 1 0 ≤ 0
    ∧ (calculate_drawdown [(1 : ℝ), -1]).2
        = listMin (calculate_drawdown [(1 : ℝ), -1]).1 := by
  have h := (c6_drawdown [(1 : ℝ), -1]).1 (by norm_num)
  exact ⟨(h.2.2.1 1 (by norm_num)).2, h.2.2.2⟩

/-! ## C7: volatility -/

/-- C7 counterexample.  The empty series is shorter than every configured
window, yet the volatility computation does not remain defined on it: the
source computes `rolling(window=min(20,0)=0, min_periods=1)`, which raises
`ValueError` (modelled as `none`), refuting the claim's no-exception
clause. -/
theorem c7_volatility_counterexample :
    ([] : List ℝ).length < 20
    ∧ calculate_volatility ([] : List ℝ) "day" = none := by
  constructor
  · norm_num
  · simp [calculate_volatility]

/-- C7 (amended).  For every granularity and every non-empty return
series, volatility[i] is the rolling sample standard deviation over the
granularity's window times the annualization factor times 100, with the
pairs daily → (20, √252), weekly → (8, √52), monthly → (6, √12), the
window bounded by `min(configuredWindow, seriesLength)`, and the output
defined with one entry per input entry; on the empty series the rolling
call raises (window 0 with `min_periods=1`). -/
theorem c7_volatility_amended (returns : List ℝ) (hne : returns ≠ []) :
    calculate_volatility returns "day"
        = some ((List.range returns.length).map
            (fun i => (rollingStd returns (min 20 returns.length) i).map
              (fun s => s * Real.sqrt 252 * 100)))
    ∧ calculate_volatility returns "week"
        = some ((List.range returns.length).map
            (fun i => (rollingStd returns (min 8 returns.length) i).map
              (fun s => s * Real.sqrt 52 * 100)))
    ∧ calculate_volatility returns "month"
        = some ((List.range returns.length).map
            (fun i => (rollingStd returns (min 6 returns.length) i).map
              (fun s => s * Real.sqrt 12 * 100)))
    ∧ (∀ v, calculate_volatility returns "day" = some v →
        v.length = returns.length)
    ∧ (∀ v, calculate_volatility returns "week" = some v →
        v.length = returns.length)
    ∧ (∀ v, calculate_volatility returns "month" = some v →
        v.length = returns.length) := by
  have hlen : 0 < returns.length := List.length_pos.mpr hne
  have h20 : ¬ min 20 returns.length < 1 := by omega
  have h8 : ¬ min 8 returns.length < 1 := by omega
  have h6 : ¬ min 6 returns.length < 1 := by omega
  have hd : calculate_volatility returns "day"
      = some ((List.range returns.length).map
          (fun i => (rollingStd returns (min 20 returns.length) i).map
            (fun s => s * Real.sqrt 252 * 100))) := by
    simp [calculate_volatility, h20]
  have hw : calculate_volatility returns "week"
      = some ((List.range returns.length).map
          (fun i => (rollingStd returns (min 8 returns.length) i).map
            (fun s => s * Real.sqrt 52 * 100))) := by
    simp [calculate_volatility, h8]
  have hm : calculate_volatility returns "month"
      = some ((List.range returns.length).map
          (fun i => (rollingStd returns (min 6 returns.length) i).map
            (fun s => s * Real.sqrt 12 * 100))) := by
    simp [calculate_volatility, h6]
  refine ⟨hd, hw, hm, ?_, ?_, ?_⟩
  · intro v hv
    rw [hd] at hv
    rw [← Option.some.inj hv]
    simp
  · intro v hv
    rw [hw] at hv
    rw [← Option.some.inj hv]
    simp
  · intro v hv
    rw [hm] at hv
    rw [← Option.some.inj hv]
    simp

/-- Witness for C7 on the concrete non-empty series `[1, 2, 3]` with
daily granularity. -/
theorem c7_volatility_amended_witness :
    calculate_volatility [(1 : ℝ), 2, 3] "day"
      = some ((List.range [(1 : ℝ), 2, 3].length).map
          (fun i => (rollingStd [(1 : ℝ), 2, 3]
              (min 20 [(1 : ℝ), 2, 3].length) i).map
            (fun s => s * Real.sqrt 252 * 100))) :=
  (c7_volatility_amended [(1 : ℝ), 2, 3] (by simp)).1

/-! ## C8: resampling -/

lemma aggBucket_fields (bs : List DBar) (hbs : bs ≠ []) :
    (aggBucket bs).openPrice = (bs.head hbs).openPrice
    ∧ (aggBucket bs).closePrice = (bs.getLast hbs).closePrice
    ∧ (∀ b ∈ bs, b.high ≤ (aggBucket bs).high)
    ∧ (∃ b ∈ bs, (aggBucket bs).high = b.high)
    ∧ (∀ b ∈ bs, (aggBucket bs).low ≤ b.low)
    ∧ (∃ b ∈ bs, (aggBucket bs).low = b.low) := by
  refine ⟨?_, ?_, ?_, ?_, ?_, ?_⟩
  · simp [aggBucket, List.head?_eq_head hbs]
  · simp [aggBucket, List.getLast?_eq_getLast bs hbs]
  · intro b hb
    exact qmax_ge (List.mem_map_of_mem (fun x => x.high) hb)
  · have hne : bs.map (fun x => x.high) ≠ [] := by simpa using hbs
    obtain ⟨b, hb, hbe⟩ := List.mem_map.mp (qmax_mem hne)
    exact ⟨b, hb, hbe.symm⟩
  · intro b hb
    exact qmin_le (List.mem_map_of_mem (fun x => x.low) hb)
  · have hne : bs.map (fun x => x.low) ≠ [] := by simpa using hbs
    obtain ⟨b, hb, hbe⟩ := List.mem_map.mp (qmin_mem hne)
    exact ⟨b, hb, hbe.symm⟩

/-- An emitted non-NaN bucket of `resampleBy` is the aggregate of the
non-empty subset of bars with that key. -/
lemma resampleBy_mem {key : DBar → ℕ} {bars : List DBar} {k : ℕ} {agg : OHLC}
    (h : (k, some agg) ∈ resampleBy key bars) :
    bars.filter (fun b => key b = k) ≠ []
    ∧ agg = aggBucket (bars.filter (fun b => key b = k)) := by
  unfold resampleBy at h
  rcases List.mem_map.mp h with ⟨k', _, heq⟩
  simp only [Prod.ext_iff] at heq
  obtain ⟨hk, hv⟩ := heq
  subst hk
  by_cases he : (bars.filter (fun b => key b = k')).isEmpty
  · rw [if_pos he] at hv
    cases hv
  · rw [if_neg he] at hv
    exact ⟨by simpa [List.isEmpty_iff] using he, (Option.some.inj hv).symm⟩

lemma mem_bucketKeys {key : DBar → ℕ} {bars : List DBar} {b : DBar}
    (hb : b ∈ bars) : key b ∈ bucketKeys key bars := by
  have hmem : key b ∈ bars.map key := List.mem_map_of_mem key hb
  cases hmap : bars.map key with
  | nil => rw [hmap] at hmem; cases hmem
  | cons k0 ks =>
    rw [hmap] at hmem
    unfold bucketKeys
    rw [hmap]
    have hmin : ks.foldl min k0 ≤ key b := by
      rcases List.mem_cons.mp hmem with heq | h'
      · rw [heq]; exact foldl_min_le ks k0
      · exact foldl_min_le_mem ks k0 (key b) h'
    have hmax : key b ≤ ks.foldl max k0 := by
      rcases List.mem_cons.mp hmem with heq | h'
      · rw [heq]; exact le_foldl_max ks k0
      · exact mem_le_foldl_max ks k0 (key b) h'
    rw [List.mem_range'_1]
    exact ⟨hmin, by omega⟩

/-- Every bar of the input is covered by an emitted bucket: the bucket of
its key, carrying the aggregate of its key's subset. -/
lemma resampleBy_covers {key : DBar → ℕ} {bars : List DBar} {b : DBar}
    (hb : b ∈ bars) :
    (key b, some (aggBucket (bars.filter (fun x => key x = key b))))
      ∈ resampleBy key bars := by
  unfold resampleBy
  apply List.mem_map.mpr
  refine ⟨key b, mem_bucketKeys hb, ?_⟩
  have hbf : b ∈ bars.filter (fun x => key x = key b) := by
    apply List.mem_filter.mpr
    refine ⟨hb, ?_⟩
    exact decide_eq_true rfl
  have hne : (bars.filter (fun x => key x = key b)).isEmpty = false := by
    simpa [List.isEmpty_iff] using List.ne_nil_of_mem hbf
  simp [hne]

/-- The emitted bucket keys are strictly increasing: buckets appear in
chronological order. -/
lemma resampleBy_keys_sorted (key : DBar → ℕ) (bars : List DBar) :
    List.Pairwise (· < ·) ((resampleBy key bars).map Prod.fst) := by
  unfold resampleBy
  rw [List.map_map]
  have hid : (Prod.fst ∘ fun k =>
      (k, let bucket := bars.filter (fun b => key b = k)
          if bucket.isEmpty then none else some (aggBucket bucket)))
      = fun (k : ℕ) => k := funext fun k => rfl
  rw [hid]
  have : (bucketKeys key bars).map (fun k => k) = bucketKeys key bars :=
    List.map_id ..
  rw [this]
  unfold bucketKeys
  cases bars.map key with
  | nil => simp
  | cons k0 ks => exact List.pairwise_lt_range' ..

/-- In a series sorted ascending by day, the head of any filtered subset
has the minimal day of the subset. -/
lemma sorted_filter_head_le (bars : List DBar) (p : DBar → Bool)
    (hs : List.Pairwise (fun a b => a.day ≤ b.day) bars)
    (hbs : bars.filter p ≠ []) :
    ∀ b ∈ bars.filter p, ((bars.filter p).head hbs).day ≤ b.day := by
  have hps : List.Pairwise (fun a b => a.day ≤ b.day) (bars.filter p) :=
    List.Pairwise.sublist (List.filter_sublist bars) hs
  have hcons := List.head_cons_tail (bars.filter p) hbs
  intro b hb
  rw [← hcons] at hb hps
  rcases List.mem_cons.mp hb with heq | h'
  · rw [heq]
  · exact (List.pairwise_cons.mp hps).1 b h'

lemma resample_data_week (bars : List DBar) :
    resample_data bars "week" = resampleBy weekKey bars := rfl

lemma resample_data_month (bars : List DBar) :
    resample_data bars "month" = resampleBy monthKey bars := rfl

/-- Full specification of one emitted non-empty bucket of `resampleBy`. -/
lemma resample_bucket_spec {key : DBar → ℕ} {bars : List DBar} {k : ℕ}
    {agg : OHLC} (h : (k, some agg) ∈ resampleBy key bars) :
    ∃ hbs : bars.filter (fun b => key b = k) ≠ [],
      agg.openPrice = ((bars.filter (fun b => key b = k)).head hbs).openPrice
      ∧ agg.closePrice = ((bars.filter (fun b => key b = k)).getLast hbs).closePrice
      ∧ (∀ b ∈ bars.filter (fun b => key b = k), b.high ≤ agg.high)
      ∧ (∃ b ∈ bars.filter (fun b => key b = k), agg.high = b.high)
      ∧ (∀ b ∈ bars.filter (fun b => key b = k), agg.low ≤ b.low)
      ∧ (∃ b ∈ bars.filter (fun b => key b = k), agg.low = b.low)
      ∧ (List.Pairwise (fun a b => a.day ≤ b.day) bars →
          ∀ b ∈ bars.filter (fun b => key b = k),
            ((bars.filter (fun b => key b = k)).head hbs).day ≤ b.day) := by
  obtain ⟨hne, hagg⟩ := resampleBy_mem h
  obtain ⟨ho, hc, hh1, hh2, hl1, hl2⟩ := aggBucket_fields _ hne
  refine ⟨hne, ?_, ?_, ?_, ?_, ?_, ?_, ?_⟩
  · rw [hagg]; exact ho
  · rw [hagg]; exact hc
  · rw [hagg]; exact hh1
  · rw [hagg]; exact hh2
  · rw [hagg]; exact hl1
  · rw [hagg]; exact hl2
  · intro hs
    exact sorted_filter_head_le bars _ hs hne

/-- C8.  Resampling: every emitted weekly (ISO week) and monthly
(calendar month) bucket aggregates its bars with open = first open,
close = last close, high = attained maximum, low = attained minimum (so
on a day-sorted series the weekly open is the chronologically first daily
open of that ISO week and the monthly high is the maximum daily high of
that month); every bar is covered by the bucket of its key; and buckets
are emitted in strictly increasing key order. -/
theorem c8_resampling (bars : List DBar) :
    (∀ k agg, (k, some agg) ∈ resample_data bars "week" →
      ∃ hbs : bars.filter (fun b => weekKey b = k) ≠ [],
        agg.openPrice = ((bars.filter (fun b => weekKey b = k)).head hbs).openPrice
        ∧ agg.closePrice = ((bars.filter (fun b => weekKey b = k)).getLast hbs).closePrice
        ∧ (∀ b ∈ bars.filter (fun b => weekKey b = k), b.high ≤ agg.high)
        ∧ (∃ b ∈ bars.filter (fun b => weekKey b = k), agg.high = b.high)
        ∧ (∀ b ∈ bars.filter (fun b => weekKey b = k), agg.low ≤ b.low)
        ∧ (∃ b ∈ bars.filter (fun b => weekKey b = k), agg.low = b.low)
        ∧ (List.Pairwise (fun a b => a.day ≤ b.day) bars →
            ∀ b ∈ bars.filter (fun b => weekKey b = k),
              ((bars.filter (fun b => weekKey b = k)).head hbs).day ≤ b.day))
    ∧ (∀ k agg, (k, some agg) ∈ resample_data bars "month" →
      ∃ hbs : bars.filter (fun b => monthKey b = k) ≠ [],
        agg.openPrice = ((bars.filter (fun b => monthKey b = k)).head hbs).openPrice
        ∧ agg.closePrice = ((bars.filter (fun b => monthKey b = k)).getLast hbs).closePrice
        ∧ (∀ b ∈ bars.filter (fun b => monthKey b = k), b.high ≤ agg.high)
        ∧ (∃ b ∈ bars.filter (fun b => monthKey b = k), agg.high = b.high)
        ∧ (∀ b ∈ bars.filter (fun b => monthKey b = k), agg.low ≤ b.low)
        ∧ (∃ b ∈ bars.filter (fun b => monthKey b = k), agg.low = b.low)
        ∧ (List.Pairwise (fun a b => a.day ≤ b.day) bars →
            ∀ b ∈ bars.filter (fun b => monthKey b = k),
              ((bars.filter (fun b => monthKey b = k)).head hbs).day ≤ b.day))
    ∧ (∀ b ∈ bars,
        (weekKey b, some (aggBucket (bars.filter (fun x => weekKey x = weekKey b))))
          ∈ resample_data bars "week")
    ∧ (∀ b ∈ bars,
        (monthKey b, some (aggBucket (bars.filter (fun x => monthKey x = monthKey b))))
          ∈ resample_data bars "month")
    ∧ List.Pairwise (· < ·) ((resample_data bars "week").map Prod.fst)
    ∧ List.Pairwise (· < ·) ((resample_data bars "month").map Prod.fst) := by
  refine ⟨?_, ?_, ?_, ?_, ?_, ?_⟩
  · intro k agg h
    rw [resample_data_week] at h
    exact resample_bucket_spec h
  · intro k agg h
    rw [resample_data_month] at h
    exact resample_bucket_spec h
  · intro b hb
    rw [resample_data_week]
    exact resampleBy_covers hb
  · intro b hb
    rw [resample_data_month]
    exact resampleBy_covers hb
  · rw [resample_data_week]
    exact resampleBy_keys_sorted weekKey bars
  · rw [resample_data_month]
    exact resampleBy_keys_sorted monthKey bars

/-- Witness for C8: two bars in the same ISO week (Monday day 4 and
Tuesday day 5 of 1970) are covered by their single weekly bucket. -/
theorem c8_resampling_witness :
    (weekKey ⟨4, 10, 11, 12, 9⟩,
      some (aggBucket ([(⟨4, 10, 11, 12, 9⟩ : DBar), ⟨5, 11, 10, 13, 8⟩].filter
        (fun x => weekKey x = weekKey ⟨4, 10, 11, 12, 9⟩))))
      ∈ resample_data [(⟨4, 10, 11, 12, 9⟩ : DBar), ⟨5, 11, 10, 13, 8⟩] "week" :=
  (c8_resampling [(⟨4, 10, 11, 12, 9⟩ : DBar), ⟨5, 11, 10, 13, 8⟩]).2.2.1
    ⟨4, 10, 11, 12, 9⟩ (by decide)

/-! ## C9: report disclosure -/

/-- C9.  The metrics block carries numbers only when the weekday is in the
reporting window (Python weekday ≥ 5) or the hour is ≥ 20 and computing
the risk block succeeded; outside those windows, or when the risk
computation fails, it carries the explanatory placeholder; the block
construction is total, so no failure propagates out of report
generation. -/
theorem c9_report_disclosure (weekday hour : ℕ) (risk : Option RiskNumbers) :
    ((metricsBlockOf weekday hour risk).volatility.isSome = true →
        (5 ≤ weekday ∨ 20 ≤ hour) ∧ risk.isSome = true)
    ∧ (¬ (5 ≤ weekday ∨ 20 ≤ hour) →
        metricsBlockOf weekday hour risk = placeholderBlock)
    ∧ (risk = none → metricsBlockOf weekday hour risk = placeholderBlock)
    ∧ (∀ r, risk = some r → 5 ≤ weekday →
        metricsBlockOf weekday hour risk
          = ⟨"Métriques du vendredi", some r.volatility, some r.sharpe,
              some r.sortino, some r.cumulativeReturn, some r.maxDrawdown⟩)
    ∧ (∀ r, risk = some r → weekday < 5 → 20 ≤ hour →
        metricsBlockOf weekday hour risk
          = ⟨"Métriques de la journée", some r.volatility, some r.sharpe,
              some r.sortino, some r.cumulativeReturn, some r.maxDrawdown⟩) := by
  refine ⟨?_, ?_, ?_, ?_, ?_⟩
  · intro hvol
    by_cases hw : 5 ≤ weekday
    · cases risk with
      | none => simp [metricsBlockOf, hw, placeholderBlock] at hvol
      | some r => exact ⟨Or.inl hw, rfl⟩
    · by_cases hh : 20 ≤ hour
      · cases risk with
        | none => simp [metricsBlockOf, hw, hh, placeholderBlock] at hvol
        | some r => exact ⟨Or.inr hh, rfl⟩
      · simp [metricsBlockOf, hw, hh, placeholderBlock] at hvol
  · intro hcond
    push_neg at hcond
    obtain ⟨hw, hh⟩ := hcond
    have hw' : ¬ 5 ≤ weekday := by omega
    have hh' : ¬ 20 ≤ hour := by omega
    simp [metricsBlockOf, hw', hh']
  · intro hr
    subst hr
    by_cases hw : 5 ≤ weekday <;> by_cases hh : 20 ≤ hour <;>
      simp [metricsBlockOf, hw, hh]
  · intro r hr hw
    subst hr
    simp [metricsBlockOf, hw]
  · intro r hr hw hh
    subst hr
    have hw' : ¬ 5 ≤ weekday := by omega
    simp [metricsBlockOf, hw', hh]

/-- Witness for C9: on a Wednesday (weekday 2) at 10:00 with a failed risk
computation the block is the placeholder. -/
theorem c9_report_disclosure_witness :
    metricsBlockOf 2 10 none = placeholderBlock :=
  (c9_report_disclosure 2 10 none).2.2.1 rfl
